import Mathlib

/-!
Verification of the rctjavalib frame codec, cache, retry and request-queue
logic against its natural-language specification.

The definitions below are shallow embeddings of the JavaScript sources:
`crc.js`, `build.js`, `parse.js`, `datagram.js`, `connection.js` and the
`cache.js` variant with a `maxSize` bound.  JavaScript numbers that are only
ever non-negative integers in the verified code paths are modelled as `Nat`;
32-bit wrap-around is made explicit with `% 2^32`; `Uint8Array` stores are
masked with `% 256`; code that throws is modelled with `Except`.
-/

namespace Rct

/-- Errors thrown by the JavaScript code.  `recoverable` is `RecoverableError`
from `recoverable.js`; `jsError` is a plain `Error`; `jsErrorCoded` is an
`Error` that carries a stable `code` property; `typeError` is a runtime
`TypeError` (e.g. property access on `undefined`). -/
inductive JsErr where
  | recoverable (msg : String)
  | jsError (msg : String)
  | jsErrorCoded (msg code : String)
  | typeError (msg : String)
  deriving Repr, DecidableEq

/-- `true` exactly on a successful (`ok`) result. -/
def isOkE {ε α : Type} : Except ε α → Bool
  | .ok _ => true
  | .error _ => false

/-! ## CRC (`crc.js`)

`update` shifts each input byte in MSB first; the register is a JS 32-bit
integer (`crc <<= 1` wraps at 2^32; bit 15 and the xor with 0x1021 only
depend on the residue, so the register is modelled as `Nat % 2^32`).
`isOdd` toggles on every `update`; `get` feeds one zero byte when the number
of updates so far is odd. -/

/-- One iteration of the 8-step loop in `CRC.update`:
`bit = (b >> (7-i)) & 1; c15 = (crc >> 15) & 1; crc <<= 1; if (c15 !== bit) crc ^= 0x1021`. -/
def crcStep (b : Nat) (crc : Nat) (i : Nat) : Nat :=
  let bit := b.testBit (7 - i)
  let c15 := crc.testBit 15
  let crc' := (crc * 2) % 2 ^ 32
  if c15 ≠ bit then crc' ^^^ 0x1021 else crc'

/-- `CRC.update(b)`: the 8-bit loop of `crc.js`, acting on the register. -/
def crcUpdate (crc b : Nat) : Nat :=
  (List.range 8).foldl (crcStep b) crc

/-- The mutable CRC object: register plus the `isOdd` parity flag. -/
structure CRCState where
  crc : Nat
  isOdd : Bool
  deriving Repr, DecidableEq

/-- `new CRC()` / `CRC.reset()`: register 0xFFFF, even parity. -/
def crcInit : CRCState := ⟨0xFFFF, false⟩

/-- `CRC.update(b)` on the object: update register, toggle parity. -/
def crcObjUpdate (s : CRCState) (b : Nat) : CRCState :=
  ⟨crcUpdate s.crc b, !s.isOdd⟩

/-- `CRC.get()`: pad the bit stream with one zero byte if an odd number of
bytes was fed, then read the register. -/
def crcGet (s : CRCState) : Nat :=
  if s.isOdd then crcUpdate s.crc 0 else s.crc

/-- CRC register after feeding a whole byte list into a fresh `CRC`. -/
def crcOfList (l : List Nat) : Nat :=
  l.foldl crcUpdate 0xFFFF

/-! ## Frame encoder (`build.js`) -/

/-- A datagram `(cmd, id, data)`.  `build.js` treats `data: null` as `[]`
(`dg.data || []`), which is modelled by passing `[]`. -/
structure Datagram where
  cmd : Nat
  id : Nat
  data : List Nat
  deriving Repr, DecidableEq

/-- `DatagramBuilder.writeByteWithEscape`: a 0x2B or 0x2D byte is preceded by
the escape token 0x2D (written without CRC); the byte itself is stored in the
`Uint8Array` (masked to 8 bits) and fed to the CRC. -/
def escByte (b : Nat) : List Nat :=
  if b == 0x2B || b == 0x2D then [0x2D, b % 256] else [b % 256]

/-- The big-endian bytes of the 32-bit id, as extracted in `build`:
`(dg.id >>> 24) & 0xFF`, …, `dg.id & 0xFF`. -/
def idBytes (id : Nat) : List Nat :=
  [(id >>> 24) % 256, (id >>> 16) % 256, (id >>> 8) % 256, id % 256]

/-- The logical (pre-escape) byte sequence fed through `writeByteWithEscape`
and into the CRC: cmd, length = 4 + |data|, the four id bytes, the data. -/
def bodyBytes (dg : Datagram) : List Nat :=
  dg.cmd :: (4 + dg.data.length) :: (idBytes dg.id ++ dg.data)

/-- `DatagramBuilder.writeCRC`: pad the CRC stream with a zero byte when an
odd number of bytes was fed, then append the two raw CRC bytes
`(crc >> 8) & 0xFF` and `crc & 0xFF`. -/
def crcBytes (body : List Nat) : List Nat :=
  let crcVal :=
    if body.length % 2 == 1 then crcUpdate (crcOfList body) 0 else crcOfList body
  [(crcVal >>> 8) % 256, crcVal % 256]

/-- `DatagramBuilder.build` followed by `bytes()`: validation, then the start
byte 0x2B (not escaped, not in the CRC), the escaped body, and the two CRC
bytes.  The `dg.id < 0`, `dg.cmd < 0` and `b < 0` validation branches of the
source are unrepresentable for `Nat` fields and hence omitted. -/
def build (dg : Datagram) : Except JsErr (List Nat) :=
  if dg.id > 0xFFFFFFFF then .error (.jsError "Invalid ID")
  else if dg.cmd > 255 then .error (.jsError "Invalid command")
  else if dg.data.any (· > 255) then .error (.jsError "Invalid data byte")
  else
    let body := bodyBytes dg
    .ok (0x2B :: (body.flatMap escByte ++ crcBytes body))

/-! ## Frame decoder (`parse.js`)

`DatagramParser.parse` is a single pass over `this.buffer` bounded by
`this.length`.  Noteworthy source behaviours modelled exactly:
* `this.buffer.indexOf(0x2B)` locates the start byte; `-1` throws
  `RecoverableError('Missing start byte')`.
* the loop runs from `startIndex` while `i < this.length`; the branch
  `b === 0x2b && state !== AwaitingStart` calls `this.reset()`, which sets
  `this.length = 0` (ending the loop at the next condition check).
* `case AwaitingCmd` has no `break` and falls through into
  `case AwaitingLen`, so the `Command.toString` validity branch's state
  assignment is immediately overwritten and the cmd byte enters the CRC twice.
* `dg = {}` leaves `dg.id` undefined; the first `dg.id |= …` coerces it to 0.
* the CRC comparison `crc.get() !== crcReceived` compares the unmasked
  register with the 16-bit received value; as `Nat` residues mod 2^32 this is
  plain equality.
* leaving the loop in any state other than `Done` throws
  `RecoverableError('Parsing failed in state N')`. -/

/-- The partially-built datagram object `dg` of `parse` (`let dg = {}`). -/
structure PDg where
  cmd : Nat := 0
  id : Nat := 0
  data : List Nat := []
  deriving Repr, DecidableEq

/-- Result of one execution of the `switch (state)` body of `parse`. -/
structure SwitchRes where
  state : Nat
  escaped : Bool
  crc : CRCState
  dg : PDg
  dataLength : Int
  crcReceived : Nat

/-- The `switch (state)` body of `parse`, for a byte `b` that reached the
switch (so the top-of-loop `escaped` flag is already cleared).  States use the
source's `ParserState` numbering (AwaitingStart=0 … Done=10). -/
def parseSwitch (state b : Nat) (crc : CRCState) (dg : PDg)
    (dataLength : Int) (crcReceived : Nat) : SwitchRes :=
  match state with
  | 1 =>
    -- AwaitingCmd: crc.reset(); crc.update(b); dg.cmd = b; then fall-through
    -- into the AwaitingLen body: crc.update(b); length = b;
    -- dataLength = length - 4; state = AwaitingId0.
    let crc1 := crcObjUpdate crcInit b
    let crc2 := crcObjUpdate crc1 b
    ⟨3, false, crc2, { dg with cmd := b }, (b : Int) - 4, crcReceived⟩
  | 2 =>
    ⟨3, false, crcObjUpdate crc b, dg, (b : Int) - 4, crcReceived⟩
  | 3 =>
    ⟨4, false, crcObjUpdate crc b,
      { dg with id := dg.id ||| (b <<< 24) % 2 ^ 32 }, dataLength, crcReceived⟩
  | 4 =>
    ⟨5, false, crcObjUpdate crc b,
      { dg with id := dg.id ||| (b <<< 16) % 2 ^ 32 }, dataLength, crcReceived⟩
  | 5 =>
    ⟨6, false, crcObjUpdate crc b,
      { dg with id := dg.id ||| (b <<< 8) % 2 ^ 32 }, dataLength, crcReceived⟩
  | 6 =>
    let dg' := { dg with id := dg.id ||| b, data := [] }
    ⟨if dataLength > 0 then 7 else 8, false, crcObjUpdate crc b, dg',
      dataLength, crcReceived⟩
  | 7 =>
    -- AwaitingData: the inner `if (escaped)` branch is dead (the flag was
    -- cleared at the top of the loop); `b === 0x2d` re-arms the escape flag
    -- without pushing; otherwise push b; then the length comparison.
    let crc' := crcObjUpdate crc b
    let dg' := if b == 0x2D then dg else { dg with data := dg.data ++ [b] }
    let esc' := b == 0x2D
    ⟨if (dg'.data.length : Int) == dataLength then 8 else 7, esc', crc', dg',
      dataLength, crcReceived⟩
  | 8 =>
    ⟨9, false, crc, dg, dataLength, b <<< 8⟩
  | 9 =>
    let cr := crcReceived ||| b
    ⟨if crcGet crc == cr then 10 else 0, false, crc, dg, dataLength, cr⟩
  | _ =>
    -- Done=10 ignores extra bytes; state 0 matches no case label.
    ⟨state, false, crc, dg, dataLength, crcReceived⟩

/-- The `state !== Done` check after the loop of `parse`. -/
def parseExit (state : Nat) (dg : PDg) : Except JsErr PDg :=
  if state != 10 then
    .error (.recoverable ("Parsing failed in state " ++ toString state))
  else .ok dg

/-- The `for (let i = startIndex; i < this.length; i++)` loop of `parse`,
including the escape handling and resync branch at the top of each iteration
and the final `state !== Done` check.  `thisLen` is the mutable `this.length`
(zeroed by `this.reset()` in the resync branch).  The loop performs at most
`thisLen - i` iterations (each iteration either increments `i` or zeroes
`thisLen`), so it is driven by that much structural fuel; fuel exhaustion
coincides with the `i < this.length` test failing. -/
def parseLoop (fuel : Nat) (buffer : List Nat) (thisLen i state : Nat)
    (escaped : Bool) (crc : CRCState) (dg : PDg) (dataLength : Int)
    (crcReceived : Nat) : Except JsErr PDg :=
  match fuel with
  | 0 => parseExit state dg
  | fuel + 1 =>
    if i < thisLen then
      let b := buffer.getD i 0
      if escaped then
        let r := parseSwitch state b crc dg dataLength crcReceived
        parseLoop fuel buffer thisLen (i + 1) r.state r.escaped r.crc r.dg
          r.dataLength r.crcReceived
      else if b == 0x2D then
        parseLoop fuel buffer thisLen (i + 1) state true crc dg dataLength
          crcReceived
      else if b == 0x2B && state != 0 then
        parseLoop fuel buffer 0 (i + 1) state escaped crc dg dataLength
          crcReceived
      else
        let r := parseSwitch state b crc dg dataLength crcReceived
        parseLoop fuel buffer thisLen (i + 1) r.state r.escaped r.crc r.dg
          r.dataLength r.crcReceived
    else parseExit state dg

/-- `Uint8Array.indexOf(0x2B)` as used by `parse` (the callers keep
`this.length` equal to the buffer length). -/
def findStart : List Nat → Option Nat
  | [] => none
  | b :: rest => if b == 0x2B then some 0 else (findStart rest).map (· + 1)

/-- `DatagramParser.parse()` on a buffer with `this.length = buffer.length`,
as established by `Connection._onData` and the round-trip test. -/
def parse (buffer : List Nat) : Except JsErr PDg :=
  match findStart buffer with
  | none => .error (.recoverable "Missing start byte")
  | some startIndex =>
    parseLoop (buffer.length - startIndex) buffer buffer.length startIndex 1
      false crcInit {} 0 0

/-- Decidable equality of `Except` results, for evaluating the model on
concrete inputs. -/
instance {ε α : Type} [DecidableEq ε] [DecidableEq α] : DecidableEq (Except ε α) := fun a b =>
  match a, b with
  | .ok x, .ok y =>
    if h : x = y then .isTrue (by rw [h]) else .isFalse (by intro hc; cases hc; exact h rfl)
  | .ok _, .error _ => .isFalse (by intro h; cases h)
  | .error _, .ok _ => .isFalse (by intro h; cases h)
  | .error x, .error y =>
    if h : x = y then .isTrue (by rw [h]) else .isFalse (by intro hc; cases hc; exact h rfl)

/-! ## Response cache (`cache.js`, bounded variant with `maxSize`)

The `entries` field is a JavaScript `Map`, modelled as an insertion-ordered
association list with unique keys: `set` on a present key updates in place,
otherwise appends; `delete` removes; `size` is the length.  Timestamps
(`Date.now()`) are passed in explicitly as `now`. -/

/-- `CacheEntry { dg, ts }`. -/
structure CacheEntry where
  dg : Datagram
  ts : Nat
  deriving Repr, DecidableEq

/-- `Map.prototype.set`: update in place if the key is present (keeping the
original insertion position), otherwise append. -/
def mapSet (m : List (Nat × CacheEntry)) (k : Nat) (v : CacheEntry) :
    List (Nat × CacheEntry) :=
  if m.any (fun p => p.1 == k) then
    m.map (fun p => if p.1 == k then (k, v) else p)
  else m ++ [(k, v)]

/-- `Map.prototype.delete`. -/
def mapDelete (m : List (Nat × CacheEntry)) (k : Nat) : List (Nat × CacheEntry) :=
  m.filter (fun p => p.1 != k)

/-- The `Cache` object of the bounded `cache.js` variant. -/
structure Cache where
  entries : List (Nat × CacheEntry)
  timeout : Nat
  maxSize : Nat
  deriving Repr, DecidableEq

/-- The oldest-entry eviction loop of `Cache.cleanup`:
`for (let i = 0; i < this.entries.size - this.maxSize; i++) delete(keys[i])`.
The bound `this.entries.size - this.maxSize` is re-evaluated against the
shrinking map on every iteration (`keys` is the key snapshot taken before the
loop); JS negative differences and truncated `Nat` subtraction both make the
condition false. -/
def evictLoop (keys : List Nat) (i : Nat) (entries : List (Nat × CacheEntry))
    (maxSize : Nat) : List (Nat × CacheEntry) :=
  match keys with
  | [] => entries
  | k :: rest =>
    if i < entries.length - maxSize then
      evictLoop rest (i + 1) (mapDelete entries k) maxSize
    else entries

/-- `Cache.cleanup()`: delete entries older than `timeout`, then, only when
the size strictly exceeds `maxSize`, run the eviction loop over a snapshot of
the remaining keys. -/
def Cache.cleanup (c : Cache) (now : Nat) : Cache :=
  let afterExpiry := c.entries.filter (fun p => !(now - p.2.ts > c.timeout))
  let entries' :=
    if afterExpiry.length > c.maxSize then
      evictLoop (afterExpiry.map Prod.fst) 0 afterExpiry c.maxSize
    else afterExpiry
  { c with entries := entries' }

/-- `Cache.put(dg)`: when `size >= maxSize` first run `cleanup`, then insert
the entry keyed by `dg.id` with the current time. -/
def Cache.put (c : Cache) (dg : Datagram) (now : Nat) : Cache :=
  let c1 := if c.entries.length ≥ c.maxSize then c.cleanup now else c
  { c1 with entries := mapSet c1.entries dg.id ⟨dg, now⟩ }

/-! ## Retry policy (`connection.js`, `retryOperation`)

The operation is modelled as a function from the attempt index to its
outcome; the observable effects are the final result, the list of durations
slept (`setTimeout` delays, in order) and the number of invocations of
`operation()`. -/

/-- Default `MAX_RETRIES` (no `process.env` override). -/
def MAX_RETRIES : Nat := 10

/-- Default `INITIAL_BACKOFF` in ms (no `process.env` override). -/
def INITIAL_BACKOFF : Nat := 100

/-- Default `BACKOFF_MULTIPLIER` (no `process.env` override). -/
def BACKOFF_MULTIPLIER : Nat := 2

/-- Observable outcome of `retryOperation`. -/
structure RetryResult (α : Type) where
  result : Except JsErr α
  sleeps : List Nat
  calls : Nat
  deriving Repr, DecidableEq

/-- The `while (attempt < retries)` loop of `retryOperation`.  On a
`RecoverableError` the attempt counter is incremented, and only `if
(attempt < retries)` does the code sleep `currentDelay` and multiply it by
the backoff multiplier; any other error is rethrown at once; when the loop
exits, `Error('Max retries reached')` is thrown.  The loop runs at most
`retries - attempt` iterations, which is supplied as structural fuel
(exhaustion coincides with the loop condition failing). -/
def retryGo {α : Type} (op : Nat → Except JsErr α) (fuel retries mult attempt
    currentDelay : Nat) : RetryResult α :=
  match fuel with
  | 0 => ⟨.error (.jsError "Max retries reached"), [], 0⟩
  | fuel + 1 =>
    if attempt < retries then
      match op attempt with
      | .ok v => ⟨.ok v, [], 1⟩
      | .error (.recoverable _) =>
        if attempt + 1 < retries then
          let r := retryGo op fuel retries mult (attempt + 1)
            (currentDelay * mult)
          ⟨r.result, currentDelay :: r.sleeps, r.calls + 1⟩
        else
          let r := retryGo op fuel retries mult (attempt + 1) currentDelay
          ⟨r.result, r.sleeps, r.calls + 1⟩
      | .error e => ⟨.error e, [], 1⟩
    else ⟨.error (.jsError "Max retries reached"), [], 0⟩

/-- `Connection.retryOperation(operation, retries, delay)`. -/
def retryOperation {α : Type} (op : Nat → Except JsErr α)
    (retries : Nat := MAX_RETRIES) (delay : Nat := INITIAL_BACKOFF)
    (mult : Nat := BACKOFF_MULTIPLIER) : RetryResult α :=
  retryGo op retries retries mult 0 delay

/-- `error instanceof RecoverableError`. -/
def isRecov : JsErr → Bool
  | .recoverable _ => true
  | _ => false

theorem retryGo_calls_le {α : Type} (op : Nat → Except JsErr α)
    (fuel retries mult : Nat) :
    ∀ attempt delay, (retryGo op fuel retries mult attempt delay).calls ≤ fuel := by
  induction fuel with
  | zero => intro attempt delay; simp [retryGo]
  | succ n ih =>
    intro attempt delay
    rcases hop : op attempt with e | v
    · rcases e with m | m | ⟨m, c⟩ | m
      · simp only [retryGo, hop]
        split
        · split
          · have := ih (attempt + 1) (delay * mult)
            simp only [RetryResult.calls]
            omega
          · have := ih (attempt + 1) delay
            simp only [RetryResult.calls]
            omega
        · simp
      · simp only [retryGo, hop]; split <;> simp
      · simp only [retryGo, hop]; split <;> simp
      · simp only [retryGo, hop]; split <;> simp
    · simp only [retryGo, hop]; split <;> simp

theorem range_map_geom (delay mult k : Nat) :
    (List.range (k + 1)).map (fun i => delay * mult ^ i) =
      delay :: (List.range k).map (fun i => delay * mult * mult ^ i) := by
  rw [List.range_succ_eq_map, List.map_cons, List.map_map]
  refine congrArg₂ _ (by simp) (List.map_congr_left ?_)
  intro i _
  simp only [Function.comp_apply, pow_succ]
  ring

theorem retryGo_exhaust {α : Type} (op : Nat → Except JsErr α)
    (retries mult : Nat) :
    ∀ fuel attempt delay, fuel = retries - attempt →
    (∀ i, attempt ≤ i → i < retries → ∃ m, op i = .error (.recoverable m)) →
    retryGo op fuel retries mult attempt delay =
      ⟨.error (.jsError "Max retries reached"),
        (List.range (retries - attempt - 1)).map (fun i => delay * mult ^ i),
        retries - attempt⟩ := by
  intro fuel
  induction fuel with
  | zero =>
    intro attempt delay hfuel _
    have h1 : retries - attempt = 0 := hfuel.symm
    simp [retryGo, h1]
  | succ n ih =>
    intro attempt delay hfuel hrec
    have hlt : attempt < retries := by omega
    obtain ⟨m, hm⟩ := hrec attempt (Nat.le_refl _) hlt
    simp only [retryGo, if_pos hlt, hm]
    by_cases hnext : attempt + 1 < retries
    · rw [if_pos hnext,
        ih (attempt + 1) (delay * mult) (by omega) (fun i hi hi2 => hrec i (by omega) hi2)]
      have hk : retries - attempt - 1 = (retries - (attempt + 1) - 1) + 1 := by omega
      have hc : retries - (attempt + 1) + 1 = retries - attempt := by omega
      simp only [hk, range_map_geom, hc]
    · rw [if_neg hnext,
        ih (attempt + 1) delay (by omega) (fun i hi hi2 => hrec i (by omega) hi2)]
      have h1 : retries - (attempt + 1) = 0 := by omega
      have h2 : retries - attempt = 1 := by omega
      simp [h1, h2]

theorem retryGo_success {α : Type} (op : Nat → Except JsErr α)
    (retries mult : Nat) (v : α) :
    ∀ fuel attempt delay k, fuel = retries - attempt → attempt ≤ k → k < retries →
    op k = .ok v →
    (∀ i, attempt ≤ i → i < k → ∃ m, op i = .error (.recoverable m)) →
    retryGo op fuel retries mult attempt delay =
      ⟨.ok v, (List.range (k - attempt)).map (fun i => delay * mult ^ i),
        k - attempt + 1⟩ := by
  intro fuel
  induction fuel with
  | zero => intro attempt delay k hfuel hak hk hop hrec; omega
  | succ n ih =>
    intro attempt delay k hfuel hak hk hop hrec
    have hlt : attempt < retries := by omega
    by_cases hek : attempt = k
    · subst hek
      simp only [retryGo, if_pos hlt, hop]
      simp
    · obtain ⟨m, hm⟩ := hrec attempt (Nat.le_refl _) (by omega)
      have hnext : attempt + 1 < retries := by omega
      simp only [retryGo, if_pos hlt, hm, if_pos hnext]
      rw [ih (attempt + 1) (delay * mult) k (by omega) (by omega) hk hop
        (fun i hi hi2 => hrec i (by omega) hi2)]
      have hkk : k - attempt = (k - (attempt + 1)) + 1 := by omega
      simp only [hkk, range_map_geom]

theorem retryGo_nonrecoverable {α : Type} (op : Nat → Except JsErr α)
    (retries mult : Nat) (e : JsErr) (he : isRecov e = false) :
    ∀ fuel attempt delay k, fuel = retries - attempt → attempt ≤ k → k < retries →
    op k = .error e →
    (∀ i, attempt ≤ i → i < k → ∃ m, op i = .error (.recoverable m)) →
    retryGo op fuel retries mult attempt delay =
      ⟨.error e, (List.range (k - attempt)).map (fun i => delay * mult ^ i),
        k - attempt + 1⟩ := by
  intro fuel
  induction fuel with
  | zero => intro attempt delay k hfuel hak hk hop hrec; omega
  | succ n ih =>
    intro attempt delay k hfuel hak hk hop hrec
    have hlt : attempt < retries := by omega
    by_cases hek : attempt = k
    · subst hek
      simp only [retryGo, if_pos hlt, hop]
      rcases e with m | m | ⟨m, c⟩ | m
      · simp [isRecov] at he
      · simp
      · simp
      · simp
    · obtain ⟨m, hm⟩ := hrec attempt (Nat.le_refl _) (by omega)
      have hnext : attempt + 1 < retries := by omega
      simp only [retryGo, if_pos hlt, hm, if_pos hnext]
      rw [ih (attempt + 1) (delay * mult) k (by omega) (by omega) hk hop
        (fun i hi hi2 => hrec i (by omega) hi2)]
      have hkk : k - attempt = (k - (attempt + 1)) + 1 := by omega
      simp only [hkk, range_map_geom]

/-! ## Datagram numeric accessors (`datagram.js`)

`float32()` and `uint32()` build a 4-byte big-endian `DataView`
(`setUint8` masks each byte to 8 bits) and read it back big-endian;
`float32()` then interprets the 32-bit word as an IEEE-754 binary32 value,
which is modelled up to that final bit-level interpretation (the word read
big-endian is returned).  `uint16()` computes `(data[0] << 8) | data[1]`
directly; `uint8()` returns `data[0]`. -/

/-- The big-endian word assembled by `DataView` from the data bytes
(`setUint8` masks to 8 bits). -/
def beWord (data : List Nat) : Nat :=
  data.foldl (fun acc b => acc * 256 + b % 256) 0

/-- `Datagram.float32()`, up to the IEEE-754 interpretation of the returned
big-endian 32-bit word. -/
def dFloat32 (dg : Datagram) : Except JsErr Nat :=
  if dg.data.length ≠ 4 then
    .error (.recoverable ("Invalid data length " ++ toString dg.data.length))
  else .ok (beWord dg.data)

/-- `Datagram.uint32()`. -/
def dUint32 (dg : Datagram) : Except JsErr Nat :=
  if dg.data.length ≠ 4 then
    .error (.recoverable
      ("Invalid data length " ++ toString dg.data.length ++ " for uint32"))
  else .ok (beWord dg.data)

/-- `Datagram.uint16()`: `(this.data[0] << 8) | this.data[1]`. -/
def dUint16 (dg : Datagram) : Except JsErr Nat :=
  if dg.data.length ≠ 2 then
    .error (.recoverable ("Invalid data length " ++ toString dg.data.length))
  else .ok ((dg.data.getD 0 0 <<< 8) ||| dg.data.getD 1 0)

/-- `Datagram.uint8()`: `this.data[0]`. -/
def dUint8 (dg : Datagram) : Except JsErr Nat :=
  if dg.data.length ≠ 1 then
    .error (.recoverable ("Invalid data length " ++ toString dg.data.length))
  else .ok (dg.data.getD 0 0)

/-! ## Battery-status pre-check of `Connection.write` (`connection.js`)

`connection.js` destructures
`const { Datagram, Command, Identifier, SOCStrategy, BatteryStatus } = require('./datagram.js')`,
but `datagram.js` does not export `BatteryStatus`, so the binding is
`undefined`.  `write` queries `Identifier.BATTERY_STATUS` before enqueuing
anything; on a non-zero status it evaluates
`new Error(\`… ${ BatteryStatus.decode(batteryStatus)}\`)` and would set
`error.code = 'BATTERY_NOT_NORMAL'` afterwards — but the template literal
dereferences the undefined binding first. -/

/-- The names in `module.exports` of `datagram.js`. -/
def datagramExports : List String :=
  ["Datagram", "Command", "Identifier", "SOCStrategy", "InverterStates"]

/-- The destructured `BatteryStatus` binding in `connection.js`; `none`
models the JavaScript value `undefined`. -/
def batteryStatusBinding : Option Unit :=
  if datagramExports.contains "BatteryStatus" then some () else none

/-- The pre-check in `Connection.write`, applied to the status value read
from `Identifier.BATTERY_STATUS` before the write job is enqueued. -/
def writePrecheck (batteryStatus : Nat) : Except JsErr Unit :=
  if batteryStatus ≠ 0 then
    match batteryStatusBinding with
    | none =>
      .error (.typeError "Cannot read properties of undefined (reading decode)")
    | some _ =>
      .error (.jsErrorCoded "Battery is not in normal operation mode"
        "BATTERY_NOT_NORMAL")
  else .ok ()

/-- The pre-check portion of `Connection.write`: the second component records
whether the WRITE frame path (`_enqueueWriteOperation`) is reached. -/
def writeAttempt (batteryStatus : Nat) : Except JsErr Unit × Bool :=
  match writePrecheck batteryStatus with
  | .error e => (.error e, false)
  | .ok _ => (.ok (), true)

/-- `true` exactly on an error that carries a stable `code` property. -/
def carriesCode {α : Type} : Except JsErr α → Bool
  | .error (.jsErrorCoded _ _) => true
  | _ => false

/-! ## Escape structure of the wire stream (`build.js`) -/

/-- The escape grammar produced by `writeByteWithEscape`: a sequence of
blocks, each either a plain byte (not 0x2B/0x2D) or an escape pair
`0x2D b` with `b ∈ {0x2B, 0x2D}` — i.e. every 0x2B/0x2D of the logical
frame is preceded by exactly one 0x2D escape, and no other 0x2D occurs. -/
inductive WellEscaped : List Nat → Prop
  | nil : WellEscaped []
  | plain (b : Nat) (l : List Nat) (h1 : b ≠ 0x2B) (h2 : b ≠ 0x2D) :
      WellEscaped l → WellEscaped (b :: l)
  | escaped (b : Nat) (l : List Nat) (h : b = 0x2B ∨ b = 0x2D) :
      WellEscaped l → WellEscaped (0x2D :: b :: l)

theorem wellEscaped_flatMap_escByte (l : List Nat) (hb : ∀ b ∈ l, b ≤ 255) :
    WellEscaped (l.flatMap escByte) := by
  induction l with
  | nil => exact .nil
  | cons b rest ih =>
    have hble : b ≤ 255 := hb b (List.mem_cons_self b rest)
    have hmod : b % 256 = b := Nat.mod_eq_of_lt (by omega)
    have ih' := ih (fun x hx => hb x (List.mem_cons_of_mem b hx))
    rw [List.flatMap_cons]
    by_cases hesc : b = 0x2B ∨ b = 0x2D
    · have : escByte b = [0x2D, b] := by
        rcases hesc with h | h <;> subst h <;> rfl
      rw [this]
      exact .escaped b _ hesc ih'
    · push_neg at hesc
      have : escByte b = [b] := by
        rw [escByte, if_neg (by simp [hesc.1, hesc.2]), hmod]
      rw [this]
      exact .plain b _ hesc.1 hesc.2 ih'

theorem wellEscaped_2B_preceded (l : List Nat) (h : WellEscaped l) :
    ∀ i, l.getD i 0 = 0x2B → 0 < i ∧ l.getD (i - 1) 0 = 0x2D := by
  induction h with
  | nil => intro i hi; simp at hi
  | plain b rest h1 h2 hw ih =>
    intro i hi
    match i with
    | 0 =>
      have hb : b = 0x2B := by simpa using hi
      exact absurd hb h1
    | j + 1 =>
      obtain ⟨h0, hprev⟩ := ih j (by simpa using hi)
      refine ⟨Nat.succ_pos j, ?_⟩
      match j, h0 with
      | j' + 1, _ => simpa using hprev
  | escaped b rest hesc hw ih =>
    intro i hi
    match i with
    | 0 => simp at hi
    | 1 => exact ⟨Nat.one_pos, by simp⟩
    | j + 2 =>
      obtain ⟨h0, hprev⟩ := ih j (by simpa using hi)
      refine ⟨by omega, ?_⟩
      match j, h0 with
      | j' + 1, _ => simpa using hprev

/-! ## Request queue (`connection.js`, `_enqueueRequest` / `_processQueue`)

`_enqueueRequest` pushes `{ fn, resolve, reject }` onto `_requestQueue` and
invokes `_processQueue`; `_processQueue` returns at once if `_processing` is
set, else sets it and drains the queue: `shift` the head job, `await
job.fn()`, resolve the job's promise with that job's own result, and clear
`_processing` when the queue is empty.  Jobs are modelled by their enqueue
index with `f j` the value job `j`'s body produces; JavaScript's
single-threaded event loop is modelled by interleaving the atomic steps
below in any order.  `loops` records the program counters of the
`_processQueue` invocations that passed the `if (this._processing) return`
guard — `none` at the `while` test, `some j` while job `j`'s body is
awaited — as a list precisely so that "at most one job body runs at any
instant" is a provable invariant rather than a modelling assumption. -/

/-- Queue-automaton state of one `Connection`. -/
structure QState where
  queue : List Nat
  processing : Bool
  loops : List (Option Nat)
  completed : List (Nat × Nat)
  nextIdx : Nat
  deriving Repr, DecidableEq

/-- A fresh `Connection`: empty queue, `_processing = false`. -/
def QInit : QState := ⟨[], false, [], [], 0⟩

/-- Atomic steps of `_enqueueRequest` / `_processQueue`:
`enqueue` pushes the next job (FIFO, `push`); `enterLoop` is a
`_processQueue` call passing the `_processing` guard; `dispatch` is the
drain loop shifting the head job and starting `await job.fn()`; `complete`
is the body finishing and `job.resolve(result)` running; `exitLoop` is the
loop ending on an empty queue and clearing `_processing`. -/
inductive QStep (f : Nat → Nat) : QState → QState → Prop
  | enqueue (s : QState) :
      QStep f s { s with queue := s.queue ++ [s.nextIdx], nextIdx := s.nextIdx + 1 }
  | enterLoop (s : QState) (h : s.processing = false) :
      QStep f s { s with processing := true, loops := s.loops ++ [none] }
  | dispatch (s : QState) (pre post : List (Option Nat)) (j : Nat) (rest : List Nat)
      (hl : s.loops = pre ++ none :: post) (hq : s.queue = j :: rest) :
      QStep f s { s with loops := pre ++ some j :: post, queue := rest }
  | complete (s : QState) (pre post : List (Option Nat)) (j : Nat)
      (hl : s.loops = pre ++ some j :: post) :
      QStep f s { s with loops := pre ++ none :: post, completed := s.completed ++ [(j, f j)] }
  | exitLoop (s : QState) (pre post : List (Option Nat))
      (hl : s.loops = pre ++ none :: post) (hq : s.queue = []) :
      QStep f s { s with loops := pre ++ post, processing := false }

/-- States reachable from a fresh `Connection`. -/
inductive QReach (f : Nat → Nat) : QState → Prop
  | init : QReach f QInit
  | step (s s' : QState) : QReach f s → QStep f s s' → QReach f s'

/-- Inductive invariant: at most one active drain loop; no loop without
`_processing`; completed, in-flight and queued job indices in order form
exactly the enqueued range; every completed job carries its own result. -/
def QInv (f : Nat → Nat) (s : QState) : Prop :=
  s.loops.length ≤ 1 ∧
  (s.processing = false → s.loops = []) ∧
  s.completed.map Prod.fst ++ s.loops.filterMap id ++ s.queue =
    List.range s.nextIdx ∧
  ∀ p ∈ s.completed, p.2 = f p.1

theorem qreach_inv (f : Nat → Nat) : ∀ s, QReach f s → QInv f s := by
  intro s h
  induction h with
  | init => exact ⟨by simp [QInit], by simp [QInit], by simp [QInit], by simp [QInit]⟩
  | step s s' hr hstep ih =>
    obtain ⟨hlen, hproc, hcat, hres⟩ := ih
    cases hstep with
    | enqueue =>
      refine ⟨hlen, hproc, ?_, hres⟩
      simp only [List.range_succ, ← hcat]
      simp [List.append_assoc]
    | enterLoop h =>
      have hl0 : s.loops = [] := hproc h
      refine ⟨by simp [hl0], by simp, ?_, hres⟩
      simp only [hl0] at hcat ⊢
      simpa using hcat
    | dispatch pre post j rest hl hq =>
      have hpre : pre = [] ∧ post = [] := by
        constructor <;> (rw [hl] at hlen; cases pre <;> cases post <;> simp_all)
      obtain ⟨hp1, hp2⟩ := hpre
      subst hp1; subst hp2
      have hpt : s.processing = true := by
        by_contra hf
        have := hproc (by simpa using hf)
        rw [hl] at this; simp at this
      refine ⟨by simp, by simp [hpt], ?_, hres⟩
      rw [hl, hq] at hcat
      simpa using hcat
    | complete pre post j hl =>
      have hpre : pre = [] ∧ post = [] := by
        constructor <;> (rw [hl] at hlen; cases pre <;> cases post <;> simp_all)
      obtain ⟨hp1, hp2⟩ := hpre
      subst hp1; subst hp2
      refine ⟨by simp, ?_, ?_, ?_⟩
      · intro hf
        have := hproc hf
        rw [hl] at this; simp at this
      · rw [hl] at hcat
        simp only [List.map_append] at *
        simpa [List.append_assoc] using hcat
      · intro p hp
        rcases List.mem_append.mp hp with h1 | h1
        · exact hres p h1
        · simp at h1
          subst h1
          rfl
    | exitLoop pre post hl hq =>
      have hpre : pre = [] ∧ post = [] := by
        constructor <;> (rw [hl] at hlen; cases pre <;> cases post <;> simp_all)
      obtain ⟨hp1, hp2⟩ := hpre
      subst hp1; subst hp2
      refine ⟨by simp, by simp, ?_, hres⟩
      rw [hl] at hcat
      rw [hq] at hcat
      simp only [hq]
      simpa using hcat

/-- Disjoint-bit `or` is addition: `(a <<< k) ||| b = a * 2^k + b` when
`b < 2^k`. -/
theorem lor_shiftLeft_eq_add (a b k : Nat) (h : b < 2 ^ k) :
    (a <<< k) ||| b = a * 2 ^ k + b := by
  apply Nat.eq_of_testBit_eq
  intro i
  rw [Nat.testBit_lor, Nat.testBit_shiftLeft, Nat.mul_comm a (2 ^ k),
    Nat.testBit_mul_pow_two_add a h i]
  by_cases hik : i < k
  · simp [hik, Nat.not_le_of_lt hik]
  · have hki : k ≤ i := Nat.le_of_not_lt hik
    have hb : b < 2 ^ i := lt_of_lt_of_le h (Nat.pow_le_pow_right (by norm_num) hki)
    simp [hik, hki, Nat.testBit_lt_two_pow hb]

end Rct

set_option maxRecDepth 8000 in
/-- C2: `DatagramBuilder.build {cmd=1, id=0x400F015B, data=[]}` produces
exactly the golden bytes `2B 01 04 40 0F 01 5B 58 B4`, and
`{cmd=1, id=0xDB2D69AE, data=[]}` produces `2B 01 04 DB 2D 2D 69 AE 55 AB`,
with a 0x2D escape inserted before the 0x2D byte of the id. -/
theorem golden_frames_exact :
    Rct.build ⟨1, 0x400F015B, []⟩ =
      .ok [0x2B, 0x01, 0x04, 0x40, 0x0F, 0x01, 0x5B, 0x58, 0xB4] ∧
    Rct.build ⟨1, 0xDB2D69AE, []⟩ =
      .ok [0x2B, 0x01, 0x04, 0xDB, 0x2D, 0x2D, 0x69, 0xAE, 0x55, 0xAB] := by
  constructor <;> decide

set_option maxRecDepth 8000 in
/-- C1 (code bug): the encode/decode round-trip fails.  `build` produces the
golden frame for `{cmd=1, id=0x400F015B, data=[]}`, but `parse` on exactly
that buffer throws `RecoverableError('Parsing failed in state 1')` instead of
returning the datagram: the resync branch `b === 0x2b && state !== AwaitingStart`
fires on the frame's own start byte and `this.reset()` zeroes `this.length`,
aborting the loop.  The repository's own Jest round-trip test asserts that
this parse succeeds. -/
theorem roundtrip_fails_on_golden_frame :
    Rct.build ⟨1, 0x400F015B, []⟩ =
      .ok [0x2B, 0x01, 0x04, 0x40, 0x0F, 0x01, 0x5B, 0x58, 0xB4] ∧
    Rct.parse [0x2B, 0x01, 0x04, 0x40, 0x0F, 0x01, 0x5B, 0x58, 0xB4] =
      .error (.recoverable "Parsing failed in state 1") := by
  constructor <;> decide

/-- C4 (code bug): feeding the first 5 bytes of the S1 frame — a strict
prefix of a valid frame — does not yield a quiet "need more data" outcome:
`parse` throws `RecoverableError('Parsing failed in state 1')`.  (For the
empty prefix it throws `RecoverableError('Missing start byte')`.)  The spec
and the `need more data` handling in `Connection._onData`
(`if (!parsed || !parsed.datagram) break`) expect no error to be raised. -/
theorem prefix_of_frame_raises_error :
    Rct.parse [0x2B, 0x01, 0x04, 0x40, 0x0F] =
      .error (.recoverable "Parsing failed in state 1") ∧
    Rct.parse [] = .error (.recoverable "Missing start byte") := by
  constructor <;> decide

set_option maxRecDepth 8000 in
/-- C5 (code bug): on the valid S2 frame, `parse` does not return a
(datagram, bytes-consumed) pair.  Its success type is a bare datagram with no
consumed-byte count — so `Connection._onData`'s `parsed.bytesConsumed` could
never be produced — and on this frame (as on every input) it does not succeed
at all. -/
theorem parse_returns_no_consumed_count :
    Rct.build ⟨1, 0xDB2D69AE, []⟩ =
      .ok [0x2B, 0x01, 0x04, 0xDB, 0x2D, 0x2D, 0x69, 0xAE, 0x55, 0xAB] ∧
    Rct.isOkE (Rct.parse [0x2B, 0x01, 0x04, 0xDB, 0x2D, 0x2D, 0x69, 0xAE, 0x55, 0xAB]) =
      false := by
  constructor <;> decide

/-- C3: in every state reachable by interleaving the queue-automaton steps
of `_enqueueRequest`/`_processQueue` on one Connection, at most one job body
is in flight at any instant; the completed jobs are exactly an initial
segment of the enqueue order (strict FIFO, no reordering); and every job's
promise is resolved with that job's own result. -/
theorem queue_single_flight_fifo (f : Nat → Nat) (s : Rct.QState)
    (h : Rct.QReach f s) :
    (s.loops.filterMap id).length ≤ 1 ∧
    s.completed.map Prod.fst = List.range s.completed.length ∧
    (∀ p ∈ s.completed, p.2 = f p.1) := by
  obtain ⟨hlen, hproc, hcat, hres⟩ := Rct.qreach_inv f s h
  refine ⟨?_, ?_, hres⟩
  · exact le_trans (List.length_filterMap_le _ _) hlen
  · have h1 : s.completed.map Prod.fst =
        (List.range s.nextIdx).take (s.completed.map Prod.fst).length := by
      rw [← hcat, List.append_assoc, List.take_left]
    have hle : s.completed.length ≤ s.nextIdx := by
      have hc := congrArg List.length hcat
      simp only [List.length_append, List.length_map, List.length_range] at hc
      omega
    rw [h1, List.take_range]
    simp only [List.length_map]
    rw [Nat.min_eq_left hle]

/-- Witness for `queue_single_flight_fifo`: enqueue one job with body
`i ↦ i + 7`, enter the drain loop, dispatch and complete it. -/
theorem queue_single_flight_fifo_witness :
    ((Rct.QState.mk [] true [none] [(0, 7)] 1).loops.filterMap id).length ≤ 1 ∧
    (Rct.QState.mk [] true [none] [(0, 7)] 1).completed.map Prod.fst =
      List.range (Rct.QState.mk [] true [none] [(0, 7)] 1).completed.length ∧
    ((0, 7) : Nat × Nat).2 = ((0, 7) : Nat × Nat).1 + 7 := by
  have hreach : Rct.QReach (fun i => i + 7) ⟨[], true, [none], [(0, 7)], 1⟩ := by
    have h1 := Rct.QReach.init (f := fun i => i + 7)
    have h2 := Rct.QReach.step _ _ h1 (Rct.QStep.enqueue Rct.QInit)
    have h3 := Rct.QReach.step _ _ h2 (Rct.QStep.enterLoop _ rfl)
    have h4 := Rct.QReach.step _ _ h3 (Rct.QStep.dispatch _ [] [] 0 [] rfl rfl)
    have h5 := Rct.QReach.step _ _ h4 (Rct.QStep.complete _ [] [] 0 rfl)
    exact h5
  have h := queue_single_flight_fifo (fun i => i + 7)
    ⟨[], true, [none], [(0, 7)], 1⟩ hreach
  exact ⟨h.1, h.2.1, h.2.2 (0, 7) (by simp)⟩

/-- C7 (code bug): with `max_size = 1`, putting two fresh (unexpired,
distinct-id) datagrams leaves 2 entries in the cache, violating
`|entries| ≤ max_size`.  At exact capacity `put` calls `cleanup`, but the
eviction loop only runs when the size strictly exceeds `maxSize` (and then
only removes about half the excess), so nothing is evicted before the insert. -/
theorem cache_put_exceeds_bound :
    ((Rct.Cache.put ⟨[], 1000, 1⟩ ⟨5, 10, []⟩ 0).put ⟨5, 20, []⟩ 0).entries.length
      = 2 := by
  decide

/-- C8 (counterexample): with the default parameters (10 retries, 100 ms
initial delay, multiplier 2) and an operation that always fails with a
`RecoverableError`, the operation is invoked 10 times but only 9 sleeps
occur — there is no sleep (and no delay multiplication) after the final
failed attempt, contradicting "after each failed attempt … it sleeps". -/
theorem retry_no_sleep_after_last_attempt :
    Rct.retryOperation (α := Nat) (fun _ => .error (.recoverable "receive timed out")) =
      ⟨.error (.jsError "Max retries reached"),
        [100, 200, 400, 800, 1600, 3200, 6400, 12800, 25600], 10⟩ ∧
    ¬ ([100, 200, 400, 800, 1600, 3200, 6400, 12800, 25600] : List Nat).length
      = Rct.MAX_RETRIES := by
  constructor <;> decide

/-- C8 (amended): `retryOperation` invokes its operation at most
`max_retries` times; when every attempt fails with a `RecoverableError`, it
makes exactly `retries` invocations, sleeps the geometric delays
`delay, delay·mult, …` after each failed attempt except the last, and raises
the terminal `Error('Max retries reached')`; a non-`RecoverableError` at any
attempt `k` (after `k` recoverable failures) is rethrown immediately with no
further attempt and no sleep after it; success at attempt `k` (after `k`
recoverable failures) stops after `k + 1` invocations, with one sleep per
failed attempt. -/
theorem retryOperation_policy {α : Type} (op : Nat → Except Rct.JsErr α)
    (retries delay mult : Nat) :
    (Rct.retryOperation op retries delay mult).calls ≤ retries ∧
    ((∀ i, i < retries → ∃ m, op i = .error (.recoverable m)) →
      Rct.retryOperation op retries delay mult =
        ⟨.error (.jsError "Max retries reached"),
          (List.range (retries - 1)).map (fun i => delay * mult ^ i), retries⟩) ∧
    (∀ e k, k < retries → Rct.isRecov e = false → op k = .error e →
      (∀ i, i < k → ∃ m, op i = .error (.recoverable m)) →
      Rct.retryOperation op retries delay mult =
        ⟨.error e, (List.range k).map (fun i => delay * mult ^ i), k + 1⟩) ∧
    (∀ v k, k < retries → op k = .ok v →
      (∀ i, i < k → ∃ m, op i = .error (.recoverable m)) →
      Rct.retryOperation op retries delay mult =
        ⟨.ok v, (List.range k).map (fun i => delay * mult ^ i), k + 1⟩) := by
  refine ⟨Rct.retryGo_calls_le op retries retries mult 0 delay, ?_, ?_, ?_⟩
  · intro hrec
    have h := Rct.retryGo_exhaust op retries mult retries 0 delay (by omega)
      (fun i _ hi2 => hrec i hi2)
    simpa using h
  · intro e k hk he hop hrec
    have h := Rct.retryGo_nonrecoverable op retries mult e he retries 0 delay k
      (by omega) (by omega) hk hop (fun i _ hi2 => hrec i hi2)
    simpa using h
  · intro v k hk hop hrec
    have h := Rct.retryGo_success op retries mult v retries 0 delay k (by omega)
      (by omega) hk hop (fun i _ hi2 => hrec i hi2)
    simpa using h

/-- Witness for `retryOperation_policy` with 5 retries, 100 ms initial
delay, multiplier 2: an operation that fails recoverably twice and then
succeeds with 7 makes three invocations with sleeps [100, 200]; an operation
that fails recoverably once and then non-recoverably is rethrown after two
invocations with one sleep. -/
theorem retryOperation_policy_witness :
    Rct.retryOperation (α := Nat)
      (fun i => if i < 2 then .error (.recoverable "receive timed out") else .ok 7)
      5 100 2 = ⟨.ok 7, [100, 200], 3⟩ ∧
    Rct.retryOperation (α := Nat)
      (fun i => if i < 1 then .error (.recoverable "receive timed out")
        else .error (.jsError "host unreachable"))
      5 100 2 = ⟨.error (.jsError "host unreachable"), [100], 2⟩ := by
  constructor
  · have h := retryOperation_policy (α := Nat)
      (fun i => if i < 2 then .error (.recoverable "receive timed out") else .ok 7)
      5 100 2
    have h4 := h.2.2.2 7 2 (by decide) rfl (fun i hi => by
      refine ⟨"receive timed out", ?_⟩
      have : i = 0 ∨ i = 1 := by omega
      rcases this with h0 | h0 <;> subst h0 <;> rfl)
    exact h4.trans (by rfl)
  · have h := retryOperation_policy (α := Nat)
      (fun i => if i < 1 then .error (.recoverable "receive timed out")
        else .error (.jsError "host unreachable"))
      5 100 2
    have h3 := h.2.2.1 (.jsError "host unreachable") 1 (by decide) rfl rfl
      (fun i hi => by
        refine ⟨"receive timed out", ?_⟩
        have h0 : i = 0 := by omega
        subst h0
        rfl)
    exact h3.trans (by rfl)

/-- C10: each numeric accessor of `Datagram` raises a `RecoverableError`
exactly when its payload length is wrong (`float32`/`uint32` need 4 bytes,
`uint16` needs 2, `uint8` needs 1), and on a matching length returns the
big-endian interpretation of the data bytes (`float32` up to the final
IEEE-754 reading of the assembled big-endian word; `uint16` is literally
`(data[0] << 8) | data[1]`, which equals `256·data[0] + data[1]`). -/
theorem datagram_accessors_guard_and_be (dg : Rct.Datagram) :
    (Rct.isOkE (Rct.dFloat32 dg) = true ↔ dg.data.length = 4) ∧
    (Rct.isOkE (Rct.dUint32 dg) = true ↔ dg.data.length = 4) ∧
    (Rct.isOkE (Rct.dUint16 dg) = true ↔ dg.data.length = 2) ∧
    (Rct.isOkE (Rct.dUint8 dg) = true ↔ dg.data.length = 1) ∧
    (∀ b0 b1 b2 b3, dg.data = [b0, b1, b2, b3] →
      b0 < 256 → b1 < 256 → b2 < 256 → b3 < 256 →
      Rct.dUint32 dg = .ok (b0 * 16777216 + b1 * 65536 + b2 * 256 + b3) ∧
      Rct.dFloat32 dg = .ok (b0 * 16777216 + b1 * 65536 + b2 * 256 + b3)) ∧
    (∀ b0 b1, dg.data = [b0, b1] → b1 < 256 →
      Rct.dUint16 dg = .ok ((b0 <<< 8) ||| b1) ∧
      (b0 <<< 8) ||| b1 = b0 * 256 + b1) ∧
    (∀ b0, dg.data = [b0] → Rct.dUint8 dg = .ok b0) := by
  refine ⟨?_, ?_, ?_, ?_, ?_, ?_, ?_⟩
  · by_cases h : dg.data.length = 4 <;> simp [Rct.dFloat32, Rct.isOkE, h]
  · by_cases h : dg.data.length = 4 <;> simp [Rct.dUint32, Rct.isOkE, h]
  · by_cases h : dg.data.length = 2 <;> simp [Rct.dUint16, Rct.isOkE, h]
  · by_cases h : dg.data.length = 1 <;> simp [Rct.dUint8, Rct.isOkE, h]
  · intro b0 b1 b2 b3 hdata h0 h1 h2 h3
    have hlen : dg.data.length = 4 := by rw [hdata]; rfl
    have hword : Rct.beWord dg.data =
        b0 * 16777216 + b1 * 65536 + b2 * 256 + b3 := by
      rw [hdata]
      simp only [Rct.beWord, List.foldl]
      rw [Nat.mod_eq_of_lt h0, Nat.mod_eq_of_lt h1, Nat.mod_eq_of_lt h2,
        Nat.mod_eq_of_lt h3]
      ring
    constructor
    · rw [Rct.dUint32, if_neg (by omega), hword]
    · rw [Rct.dFloat32, if_neg (by omega), hword]
  · intro b0 b1 hdata h1
    have hlen : dg.data.length = 2 := by rw [hdata]; rfl
    constructor
    · rw [Rct.dUint16, if_neg (by omega)]
      rw [hdata]
      rfl
    · rw [Rct.lor_shiftLeft_eq_add b0 b1 8 (by omega)]
      ring
  · intro b0 hdata
    rw [Rct.dUint8, if_neg (by rw [hdata]; simp), hdata]
    rfl

/-- C9 (code bug): when the battery status read before a write is non-zero,
`Connection.write` does fail before sending the WRITE frame and without any
retry, but the raised error is a `TypeError` (dereferencing the undefined
`BatteryStatus` binding — `datagram.js` exports no such name), not a typed
error carrying the stable code `BATTERY_NOT_NORMAL`; the `error.code`
assignment is never reached.  With status 0 the write path proceeds. -/
theorem write_precheck_throws_typeerror_without_code :
    Rct.writeAttempt 1 =
      (.error (.typeError "Cannot read properties of undefined (reading decode)"),
        false) ∧
    Rct.carriesCode (Rct.writeAttempt 1).1 = false ∧
    Rct.writeAttempt 0 = (.ok (), true) := by
  refine ⟨by decide, by decide, by decide⟩

set_option maxRecDepth 8000 in
/-- C6 (counterexample): for the valid datagram `{cmd=1, id=62, data=[]}`
the CRC is 0x152B, and the raw (unescaped) CRC trailer puts a second 0x2B
into the wire stream — so 0x2B does not appear exactly once in the whole
output, refuting the claim as stated for the CRC positions. -/
theorem crc_trailer_contains_extra_2B :
    Rct.build ⟨1, 62, []⟩ =
      .ok [0x2B, 0x01, 0x04, 0x00, 0x00, 0x00, 0x3E, 0x15, 0x2B] ∧
    List.count 0x2B [0x2B, 0x01, 0x04, 0x00, 0x00, 0x00, 0x3E, 0x15, 0x2B] = 2 := by
  constructor <;> decide

/-- C6 (amended): for every valid datagram, the wire stream is the start
byte 0x2B followed by the escaped body followed by the two raw CRC bytes;
within the escaped body every 0x2B/0x2D belonging to the logical
cmd/len/id/data bytes occurs as an escape pair `0x2D b` (exactly one escape
marker, no stray 0x2D), and in particular every 0x2B inside the body is
immediately preceded by a 0x2D.  The two raw CRC trailer bytes are exempt
and may themselves be 0x2B or 0x2D. -/
theorem escape_correctness_amended (dg : Rct.Datagram)
    (hid : dg.id ≤ 0xFFFFFFFF) (hcmd : dg.cmd ≤ 255)
    (hdata : ∀ b ∈ dg.data, b ≤ 255) (hlen : dg.data.length ≤ 251) :
    Rct.build dg =
      .ok (0x2B :: ((Rct.bodyBytes dg).flatMap Rct.escByte
        ++ Rct.crcBytes (Rct.bodyBytes dg))) ∧
    Rct.WellEscaped ((Rct.bodyBytes dg).flatMap Rct.escByte) ∧
    (∀ i, ((Rct.bodyBytes dg).flatMap Rct.escByte).getD i 0 = 0x2B →
      0 < i ∧ ((Rct.bodyBytes dg).flatMap Rct.escByte).getD (i - 1) 0 = 0x2D) := by
  have hbody : ∀ b ∈ Rct.bodyBytes dg, b ≤ 255 := by
    intro b hbmem
    rw [Rct.bodyBytes] at hbmem
    rcases List.mem_cons.mp hbmem with hb | hbmem
    · omega
    rcases List.mem_cons.mp hbmem with hb | hbmem
    · omega
    rcases List.mem_append.mp hbmem with hb | hb
    · simp [Rct.idBytes] at hb
      rcases hb with h | h | h | h <;>
        (subst h; exact Nat.le_of_lt_succ (Nat.mod_lt _ (by norm_num)))
    · exact hdata b hb
  have hwe := Rct.wellEscaped_flatMap_escByte (Rct.bodyBytes dg) hbody
  refine ⟨?_, hwe, Rct.wellEscaped_2B_preceded _ hwe⟩
  rw [Rct.build, if_neg (by omega), if_neg (by omega), if_neg ?_]
  simp only [List.any_eq_true, not_exists]
  intro b
  rintro ⟨hb, hgt⟩
  have := hdata b hb
  simp at hgt
  omega

/-- Witness for `escape_correctness_amended` at the golden datagram with an
escaped id byte, `{cmd=1, id=0xDB2D69AE, data=[]}`. -/
theorem escape_correctness_witness :
    Rct.build ⟨1, 0xDB2D69AE, []⟩ =
      .ok (0x2B :: ((Rct.bodyBytes ⟨1, 0xDB2D69AE, []⟩).flatMap Rct.escByte
        ++ Rct.crcBytes (Rct.bodyBytes ⟨1, 0xDB2D69AE, []⟩))) ∧
    Rct.WellEscaped ((Rct.bodyBytes ⟨1, 0xDB2D69AE, []⟩).flatMap Rct.escByte) := by
  have h := escape_correctness_amended ⟨1, 0xDB2D69AE, []⟩ (by norm_num) (by norm_num)
    (by simp) (by simp)
  exact ⟨h.1, h.2.1⟩

/-- Witness for `datagram_accessors_guard_and_be` at the datagram
`{cmd=5, id=0x400F015B, data=[41 20 00 00]}`: `uint32` returns 0x41200000
and `uint16`/`uint8`/`float32` behave per their guards. -/
theorem datagram_accessors_witness :
    Rct.dUint32 ⟨5, 0x400F015B, [0x41, 0x20, 0x00, 0x00]⟩ = .ok 0x41200000 ∧
    Rct.isOkE (Rct.dUint16 ⟨5, 0x400F015B, [0x41, 0x20, 0x00, 0x00]⟩) = false := by
  have h := datagram_accessors_guard_and_be ⟨5, 0x400F015B, [0x41, 0x20, 0x00, 0x00]⟩
  constructor
  · have h5 := (h.2.2.2.2.1 0x41 0x20 0x00 0x00 rfl (by decide) (by decide)
      (by decide) (by decide)).1
    exact h5.trans (by decide)
  · have h3 := h.2.2.1
    have : ¬ Rct.isOkE (Rct.dUint16 ⟨5, 0x400F015B, [0x41, 0x20, 0x00, 0x00]⟩) = true := by
      intro hc
      have := h3.mp hc
      simp at this
    simpa using this
